import Mathlib

/-!
Verification of the Encryption Bridge and Transaction Lifecycle Manager
of the `counter` repository.

The TypeScript sources are shallowly embedded:

* byte strings (`Uint8Array`, ethers `BytesLike`) become `List Nat`
  (big-endian, one `Nat` per byte);
* addresses and machine integers become `Nat` with explicit bounds;
* fallible operations (ethers helpers that throw, `await`ed external
  calls) become `Except String _`, and the outcomes of external calls
  (signer resolution, the HE engine, the chain) become explicit
  parameters of the embedded functions;
* `keccak256` is an explicit function parameter; the properties of the
  real hash that the theorems use (32-byte output, collision freeness)
  appear as hypotheses.

The file is organised as definitions first (the embedding), then the
supporting lemmas and the claim theorems.
-/

set_option autoImplicit false

namespace Counter

/-! ## Byte-string helpers (embedding of the ethers byte utilities) -/

/-- Big-endian interpretation of a byte string, as done by the ABI
decoder for `uintN` words. -/
def fromBE (bs : List Nat) : Nat :=
  bs.foldl (fun a b => a * 256 + b) 0

/-- Embedding of `ethers.toBeHex` followed by `ethers.getBytes`: the
minimal big-endian byte representation of a value, with `0` rendered
as the single byte `0x00`. -/
def toBeBytes (n : Nat) : List Nat :=
  if n = 0 then [0] else (Nat.digits 256 n).reverse

/-- Embedding of `ethers.zeroPadValue(bs, k)`: left-pads with zero
bytes to width `k`, and throws when the input is already wider. -/
def zeroPadValue (bs : List Nat) (k : Nat) : Except String (List Nat) :=
  if bs.length > k then .error "value out of range"
  else .ok (List.replicate (k - bs.length) 0 ++ bs)

/-- The (total) zero-padded big-endian encoding of a value at width `k`;
`zeroPadValue (toBeBytes n) k` returns exactly this when it succeeds. -/
def padBytes (k n : Nat) : List Nat :=
  List.replicate (k - (toBeBytes n).length) 0 ++ toBeBytes n

/-- Embedding of `ethers.getBytes` on a checksummed address: the
20-byte big-endian representation. -/
def addrBytes (a : Nat) : List Nat := padBytes 20 a

/-- A 32-byte ABI head word for a numeric value. -/
def abiWord (n : Nat) : List Nat := padBytes 32 n

/-- Embedding of `ethers.toUtf8Bytes` on the ASCII literals used by
the fallback encoder. -/
def utf8 (s : String) : List Nat :=
  s.data.map Char.toNat

/-- Hex character for one nibble. -/
def hexDigit (n : Nat) : Char :=
  if n < 10 then Char.ofNat (48 + n) else Char.ofNat (87 + n)

/-- The 0x-prefixed lowercase hex string for a byte string, as ethers
renders keccak hashes and zero-padded values. -/
def hexOfBytes (bs : List Nat) : String :=
  ⟨'0' :: 'x' :: (bs.map (fun b => [hexDigit (b / 16), hexDigit (b % 16)])).flatten⟩

/-- Substring test (used to inspect error messages). -/
def containsSub (s sub : String) : Bool :=
  s.data.tails.any (fun t => sub.data.isPrefixOf t)

/-! ## ABI encoder

Embedding of `ethers.AbiCoder.defaultAbiCoder().encode` restricted to the
static types the repository uses (`bytes32`, `address`, `uint32`,
`uint256`, `bool`): each value becomes one 32-byte word and the words are
concatenated.  Out-of-range values throw, as the ethers coder does. -/

inductive AbiValue
  | bytes32 (bs : List Nat)
  | address (a : Nat)
  | uint32 (n : Nat)
  | uint256 (n : Nat)
  | boolean (b : Bool)

def encodeAbiValue : AbiValue → Except String (List Nat)
  | .bytes32 bs => if bs.length = 32 then .ok bs else .error "invalid bytes32 value"
  | .address a => if a < 2 ^ 160 then zeroPadValue (toBeBytes a) 32 else .error "invalid address"
  | .uint32 n => if n < 2 ^ 32 then zeroPadValue (toBeBytes n) 32 else .error "value out of bounds"
  | .uint256 n => if n < 2 ^ 256 then zeroPadValue (toBeBytes n) 32 else .error "value out of bounds"
  | .boolean b => zeroPadValue (toBeBytes (if b then 1 else 0)) 32

/-- Encodes each value of the tuple to its 32-byte word, failing on the
first out-of-range value as the ethers coder does. -/
def abiEncodeWords : List AbiValue → Except String (List (List Nat))
  | [] => .ok []
  | v :: vs => do
    let w ← encodeAbiValue v
    let ws ← abiEncodeWords vs
    pure (w :: ws)

def abiEncode (vs : List AbiValue) : Except String (List Nat) := do
  let ws ← abiEncodeWords vs
  pure ws.flatten

/-- The `i`-th 32-byte word of an ABI-encoded head, as a decoder of the
static tuple encodings reads it. -/
def getWord (bs : List Nat) (i : Nat) : List Nat :=
  (bs.drop (32 * i)).take 32

/-! ## Encrypted Input Builder

Embedding of `FHEVMClient.createEncryptedInput`,
`createCompatibleEncryptedInput` and `createEncryptedBoolInput` from
`src/unnamed/part_008`.  External effects become parameters:

* `keccak` stands for `ethers.keccak256`;
* `signer` is the outcome of resolving the user address (`.ok 0` models
  the string-provider branch that uses `ethers.ZeroAddress`, an
  `.error` models a throwing `getSigner`);
* `fhevmInstance` is `null` (`none`) or an engine whose `encrypt()`
  call resolves (`some (.ok _)`) or rejects (`some (.error _)`);
* `timestamp` and `nonce` stand for `Date.now()/1000` and the random
  nonce drawn in the fallback encoder. -/

inductive FheType
  | euint32
  | ebool
  deriving DecidableEq

structure EncInput where
  handle : List Nat
  proof : List Nat
  deriving DecidableEq

structure EngineOut where
  handles : List (List Nat)
  inputProof : List Nat

namespace FHEVMClient

/-- The body of `createCompatibleEncryptedInput` before its `catch`:
derives the deterministic fallback handle and proof, propagating any
throw from the ethers helpers or the signer. -/
def compatEncode (keccak : List Nat → List Nat) (signer : Except String Nat)
    (contractAddress value : Nat) (ty : FheType)
    (timestamp nonce : Nat) : Except String EncInput := do
  let userAddress ← signer
  match ty with
  | .euint32 => do
    let valueBytes ← zeroPadValue (toBeBytes value) 32
    let tsB ← zeroPadValue (toBeBytes timestamp) 8
    let nB ← zeroPadValue (toBeBytes nonce) 8
    let handleData := keccak (utf8 "FHEVM_EUINT32" ++ addrBytes contractAddress ++
      addrBytes userAddress ++ valueBytes ++ tsB ++ nB)
    let proofData ← abiEncode [.bytes32 handleData, .address contractAddress,
      .address userAddress, .uint32 value, .uint256 timestamp,
      .bytes32 (keccak (utf8 ("proof_" ++ toString value ++ "_" ++
        toString timestamp ++ "_" ++ toString nonce)))]
    pure { handle := handleData, proof := proofData }
  | .ebool => do
    let boolValue := if value = 0 then 0 else 1
    let valueBytes ← zeroPadValue (toBeBytes boolValue) 32
    let tsB ← zeroPadValue (toBeBytes timestamp) 8
    let handleData := keccak (utf8 "FHEVM_EBOOL" ++ addrBytes contractAddress ++
      addrBytes userAddress ++ valueBytes ++ tsB)
    let proofData ← abiEncode [.bytes32 handleData, .address contractAddress,
      .address userAddress, .boolean (if value = 0 then false else true),
      .uint256 timestamp,
      .bytes32 (keccak (utf8 ("bool_proof_" ++ toString boolValue ++ "_" ++
        toString timestamp)))]
    pure { handle := handleData, proof := proofData }

/-- The `catch` branch of `createCompatibleEncryptedInput`: the minimal
fallback of a zero-padded value handle plus an encoded
`(uint256, address)` proof. -/
def minimalEncode (contractAddress value : Nat) : Except String EncInput := do
  let simpleHandle ← zeroPadValue (toBeBytes value) 32
  let simpleProof ← abiEncode [.uint256 value, .address contractAddress]
  pure { handle := simpleHandle, proof := simpleProof }

/-- Embedding of `createCompatibleEncryptedInput`: the deterministic
body, with its `catch` falling back to the minimal encoding. -/
def createCompatibleEncryptedInput (keccak : List Nat → List Nat)
    (signer : Except String Nat) (contractAddress value : Nat) (ty : FheType)
    (timestamp nonce : Nat) : Except String EncInput :=
  match compatEncode keccak signer contractAddress value ty timestamp nonce with
  | .ok r => .ok r
  | .error _ => minimalEncode contractAddress value

/-- The `try` block of `createEncryptedInput`: the primary SDK branch
runs when `chainId === 11155111` and an engine instance is present
(resolving the signer, calling the engine and validating that handle
and proof are present); otherwise it already delegates to
`createCompatibleEncryptedInput`. -/
def primaryEncode (keccak : List Nat → List Nat) (chainId : Nat)
    (fhevmInstance : Option (Except String EngineOut)) (signer : Except String Nat)
    (contractAddress value : Nat) (ty : FheType)
    (timestamp nonce : Nat) : Except String EncInput :=
  if chainId = 11155111 ∧ fhevmInstance.isSome then
    match signer, fhevmInstance with
    | .error e, _ => .error e
    | .ok _, some (.error e) => .error ("fhevmjs SDK failed: " ++ e)
    | .ok _, some (.ok enc) =>
      match enc.handles.head? with
      | none => .error "Encrypted input missing handle or proof"
      | some h =>
        if h = [] ∨ enc.inputProof = [] then
          .error "Encrypted input missing handle or proof"
        else .ok { handle := h, proof := enc.inputProof }
    | .ok _, none => .error "Encrypted input missing handle or proof"
  else
    createCompatibleEncryptedInput keccak signer contractAddress value ty timestamp nonce

/-- Embedding of `createEncryptedInput`: any throw in the `try` block is
caught and falls back to `createCompatibleEncryptedInput`. -/
def createEncryptedInput (keccak : List Nat → List Nat) (chainId : Nat)
    (fhevmInstance : Option (Except String EngineOut)) (signer : Except String Nat)
    (contractAddress value : Nat) (ty : FheType)
    (timestamp nonce : Nat) : Except String EncInput :=
  match primaryEncode keccak chainId fhevmInstance signer contractAddress value ty
    timestamp nonce with
  | .ok r => .ok r
  | .error _ =>
    createCompatibleEncryptedInput keccak signer contractAddress value ty timestamp nonce

/-- Embedding of `createEncryptedBoolInput`: delegates with the boolean
coerced to `{0, 1}` and the `ebool` tag. -/
def createEncryptedBoolInput (keccak : List Nat → List Nat) (chainId : Nat)
    (fhevmInstance : Option (Except String EngineOut)) (signer : Except String Nat)
    (contractAddress : Nat) (value : Bool) (timestamp nonce : Nat) :
    Except String EncInput :=
  createEncryptedInput keccak chainId fhevmInstance signer contractAddress
    (if value then 1 else 0) .ebool timestamp nonce

end FHEVMClient

/-! ## Client and Manager readiness (src/unnamed/part_008 lines 330-373,
656-664 and src/unnamed/part_007 lines 30-70, 331-345) -/

structure FHEVMClientState where
  chainId : Nat
  fhevmInstance : Option Unit

namespace FHEVMClient

/-- Embedding of `FHEVMClient.initialize` (the method name itself is a
reserved word in this development): a successful `createFhevmInstance`
is stored; a failure is swallowed by the `catch` and the instance set to
`null`.  The method itself never rejects. -/
def initClient (createRes : Except String Unit) (c : FHEVMClientState) :
    FHEVMClientState :=
  { c with fhevmInstance := createRes.toOption }

/-- Embedding of `FHEVMClient.isReady`. -/
def isReady (c : FHEVMClientState) : Bool :=
  c.chainId == 11155111 || c.chainId == 31337

/-- Embedding of the static `FHEVMClient.isFHEVMSupported`. -/
def isFHEVMSupported (chainId : Nat) : Bool :=
  chainId == 11155111 || chainId == 31337

end FHEVMClient

structure FHEVMMetaManagerState where
  isInitialized : Bool
  fhevmClient : Option FHEVMClientState

namespace FHEVMMetaManager

/-- Embedding of `FHEVMMetaManager.isReady`. -/
def isReady (m : FHEVMMetaManagerState) : Bool :=
  m.isInitialized && (match m.fhevmClient with
    | none => false
    | some c => FHEVMClient.isReady c)

/-- Embedding of the static `FHEVMMetaManager.getSupportedNetworks`. -/
def getSupportedNetworks : List Nat := [11155111, 31337]

/-- Embedding of the static `FHEVMMetaManager.isNetworkSupported`. -/
def isNetworkSupported (chainId : Nat) : Bool :=
  getSupportedNetworks.contains chainId

end FHEVMMetaManager

/-! ## Meta-Transaction state machine
(`FHEVMMetaManager.executeMetaTransaction`, src/unnamed/part_007 lines
123-219, and the polling effect of `useFHEVMMetaTransactions`). -/

inductive TxStatus
  | pending
  | processing
  | completed
  | failed
  deriving DecidableEq

/-- Forward position of a status in `pending → processing → terminal`. -/
def statusRank : TxStatus → Nat
  | .pending => 0
  | .processing => 1
  | .completed => 2
  | .failed => 2

def isTerminal : TxStatus → Bool
  | .completed => true
  | .failed => true
  | _ => false

/-- A status trace only moves forward: adjacent ranks never decrease and
a terminal status is never followed by anything. -/
def monotoneTrace : List TxStatus → Bool
  | [] => true
  | [_] => true
  | a :: b :: rest =>
    decide (statusRank a ≤ statusRank b) && !(isTerminal a) &&
      monotoneTrace (b :: rest)

structure Receipt where
  status : Nat
  blockNumber : Nat
  gasUsed : Nat
  deriving DecidableEq

structure MetaTx where
  status : TxStatus
  txHash : Option String
  blockNumber : Option Nat
  gasUsed : Option Nat
  deriving DecidableEq

/-- Outcomes of the external calls `executeMetaTransaction` awaits:
the signer resolution before the `try` (line 132), the signer inside the
`try` (line 156), whether the contract exposes the requested function
(line 162), the submission (line 186) and the inclusion wait
(line 192, `none` embedding a `null` receipt whose field access throws). -/
structure ExecEnv where
  signerOuter : Except String Nat
  signerInner : Except String Nat
  hasFunction : Bool
  sendRes : Except String String
  waitRes : Except String (Option Receipt)

namespace FHEVMMetaManager

/-- Embedding of `executeMetaTransaction`: returns the settled promise
together with the list of successive values the `metaTx.status` field
takes, in assignment order.  An empty trace means the rejection happened
before the `MetaTransaction` record was created. -/
def executeMetaTransaction (env : ExecEnv) :
    Except String MetaTx × List TxStatus :=
  match env.signerOuter with
  | .error e => (.error e, [])
  | .ok _ =>
    match env.signerInner with
    | .error e => (.error ("Meta transaction failed: " ++ e), [.pending, .failed])
    | .ok _ =>
      if !env.hasFunction then
        (.error "Meta transaction failed: Function not found in contract",
          [.pending, .failed])
      else
        match env.sendRes with
        | .error e =>
          (.error ("Meta transaction failed: " ++ e),
            [.pending, .processing, .failed])
        | .ok txHash =>
          match env.waitRes with
          | .error e =>
            (.error ("Meta transaction failed: " ++ e),
              [.pending, .processing, .failed])
          | .ok none =>
            (.error "Meta transaction failed: receipt is null",
              [.pending, .processing, .failed])
          | .ok (some receipt) =>
            let final : TxStatus :=
              if receipt.status = 1 then .completed else .failed
            (.ok { status := final, txHash := some txHash,
                   blockNumber := some receipt.blockNumber,
                   gasUsed := some receipt.gasUsed },
              [.pending, .processing, final])

end FHEVMMetaManager

/-- One step of the hook's 10-second status-refresh loop
(`useFHEVMMetaTransactions.ts` lines 218-248) on a single transaction:
terminal or hash-less entries are returned unchanged, otherwise a
confirmed receipt promotes the status to `completed` and anything else
(including a failed status query) leaves the entry as it was. -/
def refreshStep (statusRes : Except String Bool) (tx : MetaTx) : MetaTx :=
  if tx.status = .completed ∨ tx.status = .failed ∨ tx.txHash = none then tx
  else
    match statusRes with
    | .error _ => tx
    | .ok confirmed =>
      if confirmed then { tx with status := .completed } else tx

/-- The hook's `executeMetaTransaction` wrapper
(`useFHEVMMetaTransactions.ts` lines 93-143): a resolved manager call is
prepended to the caller-visible history; a rejected one records an error
string and rethrows, leaving the history unchanged. -/
def hookExecute (env : ExecEnv) (history : List MetaTx) :
    Except String MetaTx × List MetaTx :=
  match (FHEVMMetaManager.executeMetaTransaction env).1 with
  | .ok tx => (.ok tx, tx :: history)
  | .error e => (.error e, history)

/-! ## Hook initialization and the unsupported-network path
(`useFHEVMMetaTransactions.ts` lines 53-117). -/

structure HookState where
  isInitialized : Bool
  error : Option String
  manager : Option Unit

/-- Embedding of the hook's `initialize`: the network-support check
runs right after the chain id is known; its throw is caught and stored
as the hook's error state, and the manager reference stays `null`. -/
def hookInit (chainId : Nat) (managerInit : Except String Unit) : HookState :=
  if !FHEVMMetaManager.isNetworkSupported chainId then
    { isInitialized := false,
      error := some ("Initialization failed: Network " ++ toString chainId ++
        " is not supported for FHEVM operations"),
      manager := none }
  else
    match managerInit with
    | .ok _ => { isInitialized := true, error := none, manager := some () }
    | .error e =>
      { isInitialized := false,
        error := some ("Initialization failed: " ++ e),
        manager := none }

/-- Embedding of the hook's `executeMetaTransaction` guard: with no
manager the call rejects immediately (last component records whether
the manager — and hence any encryption or network work — was reached). -/
def hookExecuteGuarded (st : HookState) (env : ExecEnv)
    (history : List MetaTx) :
    Except String MetaTx × List MetaTx × Bool :=
  match st.manager with
  | none => (.error "FHEVM Meta Manager not initialized", history, false)
  | some _ =>
    let r := hookExecute env history
    (r.1, r.2, true)

/-! ## Key Material Cache (`PublicKeyStorage`, src/unnamed/part_008
lines 213-327)

The two IndexedDB object stores become association lists keyed by the
ACL address; `put` on a `keyPath` store is an upsert.  A failing
IndexedDB (`openDB` or transaction errors) is modelled by `dbOk = false`,
which routes both methods through their `catch` branches.  JavaScript
field values are modelled three-valued (`undef` for an absent property,
`null`, or a value), because the source distinguishes them with the
`...(publicKey && \x7b publicKey \x7d)` spread. -/

structure FhevmStoredPublicKey where
  publicKeyId : String
  publicKey : List Nat
  deriving DecidableEq

structure FhevmStoredPublicParams where
  publicParamsId : String
  publicParams : List Nat
  deriving DecidableEq

inductive JsOpt (α : Type)
  | undef
  | null
  | val (a : α)
  deriving DecidableEq

structure CacheState where
  publicKeyStore : List (String × FhevmStoredPublicKey)
  paramsStore : List (String × FhevmStoredPublicParams)
  deriving DecidableEq

def emptyCache : CacheState := ⟨[], []⟩

/-- The transformed public-key record `get` builds
(`id`/`data` renaming of the stored fields). -/
structure PublicKeyOut where
  id : String
  data : List Nat
  deriving DecidableEq

/-- The params wrapper `get` builds: the stored record under the
`"2048"` key. -/
structure ParamsBag where
  size2048 : FhevmStoredPublicParams
  deriving DecidableEq

structure GetResult where
  publicKey : JsOpt PublicKeyOut
  publicParams : JsOpt ParamsBag
  deriving DecidableEq

/-- IndexedDB `put` on a store with a `keyPath`: replace or insert. -/
def upsert {α : Type} (l : List (String × α)) (k : String) (v : α) :
    List (String × α) :=
  (k, v) :: l.filter (fun p => p.1 ≠ k)

namespace PublicKeyStorage

/-- Embedding of `PublicKeyStorage.get`.  On the success path an absent
row leaves `publicKey` out of the result object (`undef`) and makes
`publicParams` `null`; the `catch` branch returns both fields `null`. -/
def get (dbOk : Bool) (st : CacheState) (aclAddress : String) : GetResult :=
  if !dbOk then { publicKey := .null, publicParams := .null }
  else
    let storedPublicKey := st.publicKeyStore.lookup aclAddress
    let storedPublicParams := st.paramsStore.lookup aclAddress
    { publicKey :=
        match storedPublicKey with
        | some k =>
          if k.publicKeyId = "" then .undef
          else .val { id := k.publicKeyId, data := k.publicKey }
        | none => .undef,
      publicParams :=
        match storedPublicParams with
        | some p => .val { size2048 := p }
        | none => .null }

/-- Embedding of `PublicKeyStorage.set`: writes whichever records are
non-null; a storage failure is swallowed and leaves the state as is. -/
def set (dbOk : Bool) (st : CacheState) (aclAddress : String)
    (publicKey : Option FhevmStoredPublicKey)
    (publicParams : Option FhevmStoredPublicParams) : CacheState :=
  if !dbOk then st
  else
    { publicKeyStore :=
        match publicKey with
        | some k => upsert st.publicKeyStore aclAddress k
        | none => st.publicKeyStore,
      paramsStore :=
        match publicParams with
        | some p => upsert st.paramsStore aclAddress p
        | none => st.paramsStore }

end PublicKeyStorage

/-! ## Engine Instance Factory (`createFhevmInstance`,
src/unnamed/part_008 lines 684-852)

External-call outcomes are parameters; `aborted i` is the value
`signal.aborted` has at the `i`-th `throwIfAborted()` read the run
performs.  The function returns the settled promise together with the
final cache state, so cache effects of rejected runs stay observable. -/

structure InstanceOut where
  publicKey : FhevmStoredPublicKey
  publicParams : FhevmStoredPublicParams
  deriving DecidableEq

inductive FhevmErr
  | cancelled
  | other (msg : String)
  deriving DecidableEq

structure InstanceEnv where
  chainIdRes : Except String Nat
  mockChains : List Nat
  rpcUrlPresent : Bool
  sdkValid : Bool
  loadRes : Except String Unit
  sdkInitialized : Bool
  initRes : Except String Unit
  aclAddress : Nat
  dbOk : Bool
  createRes : Except String InstanceOut
  aborted : Nat → Bool

/-- The enhanced mock instance of the local-development branch, seen
through its key-material accessors. -/
def mockInstanceOut : InstanceOut :=
  { publicKey := { publicKeyId := "mock-dev", publicKey := List.replicate 32 0 },
    publicParams := { publicParamsId := "mock-params",
                      publicParams := List.replicate 2048 0 } }

/-- The cache key for a domain: the hex rendering of the ACL address. -/
def aclKey (a : Nat) : String := hexOfBytes (addrBytes a)

/-- Embedding of `createFhevmInstance`. -/
def createFhevmInstance (env : InstanceEnv) (cache : CacheState) :
    Except FhevmErr InstanceOut × CacheState :=
  match env.chainIdRes with
  | .error e => (.error (.other e), cache)
  | .ok chainId =>
    let isMock := (31337 :: env.mockChains).contains chainId
    if isMock && env.rpcUrlPresent then
      if env.aborted 0 then (.error .cancelled, cache)
      else (.ok mockInstanceOut, cache)
    else if env.aborted 0 then (.error .cancelled, cache)
    else
      let afterLoad : Except FhevmErr Nat :=
        if !env.sdkValid then
          match env.loadRes with
          | .error e => .error (.other e)
          | .ok _ => if env.aborted 1 then .error .cancelled else .ok 2
        else .ok 1
      match afterLoad with
      | .error e => (.error e, cache)
      | .ok n1 =>
        let afterInit : Except FhevmErr Nat :=
          if !env.sdkInitialized then
            match env.initRes with
            | .error e => .error (.other e)
            | .ok _ => if env.aborted n1 then .error .cancelled else .ok (n1 + 1)
          else .ok n1
        match afterInit with
        | .error e => (.error e, cache)
        | .ok n2 =>
          if env.aclAddress < 2 ^ 160 then
            let _cached := PublicKeyStorage.get env.dbOk cache (aclKey env.aclAddress)
            if env.aborted n2 then (.error .cancelled, cache)
            else
              match env.createRes with
              | .error e => (.error (.other e), cache)
              | .ok inst =>
                let cache2 := PublicKeyStorage.set env.dbOk cache
                  (aclKey env.aclAddress) (some inst.publicKey)
                  (some inst.publicParams)
                if env.aborted (n2 + 1) then (.error .cancelled, cache2)
                else (.ok inst, cache2)
          else (.error (.other "Invalid ACL address"), cache)

/-- An idealised stand-in for a 32-byte collision-free hash, used to
instantiate the hash-parameterised theorems on concrete inputs: the
input list is packed injectively into one number with the Cantor
pairing function and placed in the last of 32 entries. -/
def keccakW (bs : List Nat) : List Nat :=
  List.replicate 31 0 ++ [Nat.pair bs.length (bs.foldr Nat.pair 0)]

/-! ## Supporting lemmas -/

theorem length_hexOfBytes (bs : List Nat) :
    (hexOfBytes bs).length = 2 + 2 * bs.length := by
  have h : ((bs.map (fun b => [hexDigit (b / 16), hexDigit (b % 16)])).flatten).length
      = 2 * bs.length := by
    induction bs with
    | nil => simp
    | cons b tl ih => simp [ih]; ring
  simp [hexOfBytes, String.length, h]
  omega

theorem fromBE_append_singleton (bs : List Nat) (x : Nat) :
    fromBE (bs ++ [x]) = fromBE bs * 256 + x := by
  simp [fromBE, List.foldl_append]

theorem fromBE_reverse_eq_ofDigits (l : List Nat) :
    fromBE l.reverse = Nat.ofDigits 256 l := by
  induction l with
  | nil => simp [fromBE]
  | cons x tl ih =>
    rw [List.reverse_cons, fromBE_append_singleton, ih, Nat.ofDigits_cons]
    ring

/-- Round trip: decoding the minimal big-endian bytes recovers the value. -/
theorem fromBE_toBeBytes (n : Nat) : fromBE (toBeBytes n) = n := by
  unfold toBeBytes
  split
  · simp [fromBE]; omega
  · rw [fromBE_reverse_eq_ofDigits, Nat.ofDigits_digits]

theorem fromBE_replicate_zero_append (j : Nat) (bs : List Nat) :
    fromBE (List.replicate j 0 ++ bs) = fromBE bs := by
  have h : ∀ (j : Nat), List.foldl (fun a b => a * 256 + b) 0 (List.replicate j 0) = 0 := by
    intro j
    induction j with
    | zero => simp
    | succ k ih => simpa [List.replicate_succ] using ih
  simp [fromBE, List.foldl_append, h]

theorem length_toBeBytes_le {n k : Nat} (hk : 1 ≤ k) (hn : n < 256 ^ k) :
    (toBeBytes n).length ≤ k := by
  unfold toBeBytes
  split
  · simpa using hk
  · rename_i hne
    have hlog : Nat.log 256 n < k :=
      (Nat.lt_pow_iff_log_lt (by norm_num) hne).1 hn
    rw [List.length_reverse, Nat.digits_len 256 n (by norm_num) hne]
    omega

theorem length_toBeBytes_pos (n : Nat) : 1 ≤ (toBeBytes n).length := by
  unfold toBeBytes
  split
  · simp
  · rename_i hne
    rw [List.length_reverse, Nat.digits_len 256 n (by norm_num) hne]
    omega

theorem zeroPadValue_ok {bs : List Nat} {k : Nat} (h : bs.length ≤ k) :
    zeroPadValue bs k = .ok (List.replicate (k - bs.length) 0 ++ bs) := by
  simp [zeroPadValue, Nat.not_lt.2 h]

theorem zeroPadValue_length {bs out : List Nat} {k : Nat}
    (h : zeroPadValue bs k = .ok out) : out.length = k := by
  unfold zeroPadValue at h
  split at h
  · cases h
  · rename_i hle
    cases h
    simp
    omega

theorem fromBE_zeroPadValue {bs out : List Nat} {k : Nat}
    (h : zeroPadValue bs k = .ok out) : fromBE out = fromBE bs := by
  unfold zeroPadValue at h
  split at h
  · cases h
  · cases h
    exact fromBE_replicate_zero_append _ _

theorem zeroPadValue_toBeBytes_ok {n k : Nat} (hk : 1 ≤ k) (hn : n < 256 ^ k) :
    zeroPadValue (toBeBytes n) k = .ok (padBytes k n) :=
  zeroPadValue_ok (length_toBeBytes_le hk hn)

theorem padBytes_length {n k : Nat} (hk : 1 ≤ k) (hn : n < 256 ^ k) :
    (padBytes k n).length = k := by
  have h := length_toBeBytes_le hk hn
  simp [padBytes]
  omega

theorem fromBE_padBytes (k n : Nat) : fromBE (padBytes k n) = n := by
  rw [padBytes, fromBE_replicate_zero_append, fromBE_toBeBytes]

/-- The fixed-width big-endian encoding is injective. -/
theorem padBytes_inj {k m n : Nat} (h : padBytes k m = padBytes k n) : m = n := by
  have := congrArg fromBE h
  simpa [fromBE_padBytes] using this

theorem length_addrBytes {a : Nat} (ha : a < 2 ^ 160) : (addrBytes a).length = 20 :=
  padBytes_length (by norm_num) (by norm_num at ha ⊢; omega)

theorem length_abiWord {n : Nat} (hn : n < 2 ^ 256) : (abiWord n).length = 32 :=
  padBytes_length (by norm_num) (by norm_num at hn ⊢; omega)

theorem encodeAbiValue_length {v : AbiValue} {w : List Nat}
    (h : encodeAbiValue v = .ok w) : w.length = 32 := by
  cases v <;> simp only [encodeAbiValue] at h <;> (try split at h) <;>
    first
      | (cases h; assumption)
      | exact zeroPadValue_length h
      | cases h

theorem abiEncode_cons (v : AbiValue) (vs : List AbiValue) :
    abiEncode (v :: vs) = (do
      let w ← encodeAbiValue v
      let rest ← abiEncode vs
      pure (w ++ rest)) := by
  cases h : encodeAbiValue v with
  | error e => simp [abiEncode, abiEncodeWords, h]
  | ok w =>
    cases h2 : abiEncodeWords vs with
    | error e => simp [abiEncode, abiEncodeWords, h, h2]
    | ok ws => simp [abiEncode, abiEncodeWords, h, h2]

theorem getWord_append_zero {w rest : List Nat} (h : w.length = 32) :
    getWord (w ++ rest) 0 = w := by
  simp [getWord, List.take_append_eq_append_take, h]

theorem getWord_append_succ {w rest : List Nat} {i : Nat} (h : w.length = 32) :
    getWord (w ++ rest) (i + 1) = getWord rest i := by
  have h1 : 32 * (i + 1) = w.length + 32 * i := by omega
  have h2 : List.drop (w.length + 32 * i) w = [] :=
    List.drop_eq_nil_of_le (by omega)
  simp [getWord, h1, List.drop_append_eq_append_drop, h2]

theorem encode_bytes32_ok {bs : List Nat} (h : bs.length = 32) :
    encodeAbiValue (.bytes32 bs) = .ok bs := by
  simp [encodeAbiValue, h]

theorem encode_bytes32_keccak_ok {keccak : List Nat → List Nat}
    (hk : ∀ bs, (keccak bs).length = 32) (bs : List Nat) :
    encodeAbiValue (.bytes32 (keccak bs)) = .ok (keccak bs) :=
  encode_bytes32_ok (hk bs)

theorem encode_address_ok {a : Nat} (h : a < 2 ^ 160) :
    encodeAbiValue (.address a) = .ok (abiWord a) := by
  have h2 : a < 256 ^ 32 := by norm_num at h ⊢; omega
  simp only [encodeAbiValue]
  rw [if_pos h, zeroPadValue_toBeBytes_ok (by norm_num) h2]
  rfl

theorem encode_uint32_ok {n : Nat} (h : n < 2 ^ 32) :
    encodeAbiValue (.uint32 n) = .ok (abiWord n) := by
  have h2 : n < 256 ^ 32 := by norm_num at h ⊢; omega
  simp only [encodeAbiValue]
  rw [if_pos h, zeroPadValue_toBeBytes_ok (by norm_num) h2]
  rfl

theorem encode_uint256_ok {n : Nat} (h : n < 2 ^ 256) :
    encodeAbiValue (.uint256 n) = .ok (abiWord n) := by
  have h2 : n < 256 ^ 32 := by norm_num at h ⊢; omega
  simp only [encodeAbiValue]
  rw [if_pos h, zeroPadValue_toBeBytes_ok (by norm_num) h2]
  rfl

theorem encode_boolean_ok (b : Bool) :
    encodeAbiValue (.boolean b) = .ok (abiWord (if b then 1 else 0)) := by
  have h2 : (if b then 1 else 0) < 256 ^ 32 := by cases b <;> norm_num
  simp only [encodeAbiValue]
  rw [zeroPadValue_toBeBytes_ok (by norm_num) h2]
  rfl

theorem abiEncode_six_ok (w1 : List Nat) (c u : Nat) (v4 : AbiValue) (t : Nat)
    (w6 m : List Nat)
    (h1 : w1.length = 32) (h6 : w6.length = 32)
    (hc : c < 2 ^ 160) (hu : u < 2 ^ 160)
    (h4 : encodeAbiValue v4 = .ok m) (ht : t < 2 ^ 256) :
    abiEncode [.bytes32 w1, .address c, .address u, v4, .uint256 t, .bytes32 w6] =
      .ok (w1 ++ abiWord c ++ abiWord u ++ m ++ abiWord t ++ w6) := by
  simp [abiEncode, abiEncodeWords, encode_bytes32_ok h1, encode_bytes32_ok h6,
    encode_address_ok hc, encode_address_ok hu, h4, encode_uint256_ok ht,
    Bind.bind, Except.bind, Pure.pure, Except.pure]

theorem abiEncode_pair_ok {v c : Nat} (hv : v < 2 ^ 256) (hc : c < 2 ^ 160) :
    abiEncode [.uint256 v, .address c] = .ok (abiWord v ++ abiWord c) := by
  simp [abiEncode, abiEncodeWords, encode_uint256_ok hv, encode_address_ok hc,
    Bind.bind, Except.bind, Pure.pure, Except.pure]

/-- Closed form of the deterministic fallback for `euint32`: the handle
is the hash of the domain-separated concatenation of the type tag,
contract address, user address, zero-padded value, timestamp and nonce;
the proof is the six-word ABI tuple. -/
theorem compatEncode_euint32_eq (keccak : List Nat → List Nat)
    {user c v t n : Nat} (hc : c < 2 ^ 160) (hu : user < 2 ^ 160)
    (hv : v < 2 ^ 32) (ht : t < 2 ^ 64) (hn : n < 2 ^ 64)
    (hk : ∀ bs, (keccak bs).length = 32) :
    FHEVMClient.compatEncode keccak (.ok user) c v .euint32 t n = .ok
      { handle := keccak (utf8 "FHEVM_EUINT32" ++ addrBytes c ++ addrBytes user ++
          abiWord v ++ padBytes 8 t ++ padBytes 8 n),
        proof := keccak (utf8 "FHEVM_EUINT32" ++ addrBytes c ++ addrBytes user ++
            abiWord v ++ padBytes 8 t ++ padBytes 8 n) ++
          abiWord c ++ abiWord user ++ abiWord v ++ abiWord t ++
          keccak (utf8 ("proof_" ++ toString v ++ "_" ++ toString t ++ "_" ++
            toString n)) } := by
  have hv256 : v < 256 ^ 32 := by norm_num at hv ⊢; omega
  have ht8 : t < 256 ^ 8 := by norm_num at ht ⊢; omega
  have hn8 : n < 256 ^ 8 := by norm_num at hn ⊢; omega
  have htbig : t < 2 ^ 256 := by norm_num at ht ⊢; omega
  simp [FHEVMClient.compatEncode, Bind.bind, Except.bind, Pure.pure,
    Except.pure, abiEncode, abiEncodeWords,
    zeroPadValue_toBeBytes_ok (by norm_num : (1:Nat) ≤ 32) hv256,
    zeroPadValue_toBeBytes_ok (by norm_num : (1:Nat) ≤ 8) ht8,
    zeroPadValue_toBeBytes_ok (by norm_num : (1:Nat) ≤ 8) hn8,
    encode_bytes32_keccak_ok hk, encode_address_ok hc, encode_address_ok hu,
    encode_uint32_ok hv, encode_uint256_ok htbig, abiWord]

/-- Closed form of the deterministic fallback for `ebool`: the value is
coerced to `\x7b0,1\x7d`, and the handle hash covers the type tag, the
addresses, the coerced value and the timestamp — the nonce does not
enter it. -/
theorem compatEncode_ebool_eq (keccak : List Nat → List Nat)
    {user c v t n : Nat} (hc : c < 2 ^ 160) (hu : user < 2 ^ 160)
    (ht : t < 2 ^ 64)
    (hk : ∀ bs, (keccak bs).length = 32) :
    FHEVMClient.compatEncode keccak (.ok user) c v .ebool t n = .ok
      { handle := keccak (utf8 "FHEVM_EBOOL" ++ addrBytes c ++ addrBytes user ++
          abiWord (if v = 0 then 0 else 1) ++ padBytes 8 t),
        proof := keccak (utf8 "FHEVM_EBOOL" ++ addrBytes c ++ addrBytes user ++
            abiWord (if v = 0 then 0 else 1) ++ padBytes 8 t) ++
          abiWord c ++ abiWord user ++ abiWord (if v = 0 then 0 else 1) ++
          abiWord t ++
          keccak (utf8 ("bool_proof_" ++ toString (if v = 0 then 0 else 1) ++
            "_" ++ toString t)) } := by
  have hb256 : (if v = 0 then 0 else 1) < 256 ^ 32 := by split <;> norm_num
  have ht8 : t < 256 ^ 8 := by norm_num at ht ⊢; omega
  have htbig : t < 2 ^ 256 := by norm_num at ht ⊢; omega
  have hbool : encodeAbiValue (.boolean (!decide (v = 0))) =
      .ok (abiWord (if v = 0 then 0 else 1)) := by
    by_cases hv0 : v = 0 <;> simp [hv0, encode_boolean_ok]
  simp [FHEVMClient.compatEncode, Bind.bind, Except.bind, Pure.pure,
    Except.pure, abiEncode, abiEncodeWords,
    zeroPadValue_toBeBytes_ok (by norm_num : (1:Nat) ≤ 32) hb256,
    zeroPadValue_toBeBytes_ok (by norm_num : (1:Nat) ≤ 8) ht8,
    encode_bytes32_keccak_ok hk, encode_address_ok hc, encode_address_ok hu,
    hbool, encode_uint256_ok htbig, abiWord]

/-- Closed form of the minimal fallback. -/
theorem minimalEncode_eq {c v : Nat} (hc : c < 2 ^ 160) (hv : v < 2 ^ 256) :
    FHEVMClient.minimalEncode c v =
      .ok { handle := abiWord v, proof := abiWord v ++ abiWord c } := by
  have hv256 : v < 256 ^ 32 := by norm_num at hv ⊢; omega
  simp [FHEVMClient.minimalEncode, Bind.bind, Except.bind, Pure.pure,
    Except.pure, zeroPadValue_toBeBytes_ok (by norm_num : (1:Nat) ≤ 32) hv256,
    abiEncode_pair_ok hv hc, abiWord]

/-- A rejected signer propagates out of the deterministic body. -/
theorem compatEncode_signer_error (keccak : List Nat → List Nat)
    (c v : Nat) (ty : FheType) (t n : Nat) (e : String) :
    FHEVMClient.compatEncode keccak (.error e) c v ty t n = .error e := rfl

theorem createCompatible_of_body_ok {keccak : List Nat → List Nat}
    {signer : Except String Nat} {c v : Nat} {ty : FheType} {t n : Nat}
    {r : EncInput}
    (h : FHEVMClient.compatEncode keccak signer c v ty t n = .ok r) :
    FHEVMClient.createCompatibleEncryptedInput keccak signer c v ty t n = .ok r := by
  simp [FHEVMClient.createCompatibleEncryptedInput, h]

theorem createCompatible_of_body_error {keccak : List Nat → List Nat}
    {signer : Except String Nat} {c v : Nat} {ty : FheType} {t n : Nat}
    {e : String}
    (h : FHEVMClient.compatEncode keccak signer c v ty t n = .error e) :
    FHEVMClient.createCompatibleEncryptedInput keccak signer c v ty t n =
      FHEVMClient.minimalEncode c v := by
  simp [FHEVMClient.createCompatibleEncryptedInput, h]

/-- Without an engine instance the builder is exactly the compatible
fallback encoder. -/
theorem createEncryptedInput_none_eq (keccak : List Nat → List Nat)
    (chainId : Nat) (signer : Except String Nat) (c v : Nat) (ty : FheType)
    (t n : Nat) :
    FHEVMClient.createEncryptedInput keccak chainId none signer c v ty t n =
      FHEVMClient.createCompatibleEncryptedInput keccak signer c v ty t n := by
  unfold FHEVMClient.createEncryptedInput FHEVMClient.primaryEncode
  simp only [Option.isSome_none, Bool.false_eq_true, and_false, if_false]
  cases h : FHEVMClient.createCompatibleEncryptedInput keccak signer c v ty t n with
  | ok r => simp [h]
  | error e => simp [h]

/-- Under the well-typedness bounds the compatible fallback encoder
always succeeds, whatever the signer outcome. -/
theorem createCompatible_total {keccak : List Nat → List Nat}
    (signer : Except String Nat) {c v : Nat} (ty : FheType) {t n : Nat}
    (hk : ∀ bs, (keccak bs).length = 32) (hc : c < 2 ^ 160) (hv : v < 2 ^ 32)
    (ht : t < 2 ^ 64) (hn : n < 2 ^ 64)
    (hs : ∀ u, signer = .ok u → u < 2 ^ 160) :
    ∃ r, FHEVMClient.createCompatibleEncryptedInput keccak signer c v ty t n =
      .ok r := by
  have hv256 : v < 2 ^ 256 := by norm_num at hv ⊢; omega
  cases signer with
  | error e =>
    refine ⟨{ handle := abiWord v, proof := abiWord v ++ abiWord c }, ?_⟩
    rw [createCompatible_of_body_error (compatEncode_signer_error keccak c v ty t n e)]
    exact minimalEncode_eq hc hv256
  | ok u =>
    have hu : u < 2 ^ 160 := hs u rfl
    cases ty with
    | euint32 =>
      exact ⟨_, createCompatible_of_body_ok
        (compatEncode_euint32_eq keccak hc hu hv ht hn hk)⟩
    | ebool =>
      exact ⟨_, createCompatible_of_body_ok
        (compatEncode_ebool_eq keccak hc hu ht hk)⟩

/-- Reading the second and fourth 32-byte words of a six-word ABI
tuple. -/
theorem getWord_proof_six (w0 w1 w2 w3 w4 w5 : List Nat)
    (h0 : w0.length = 32) (h1 : w1.length = 32) (h2 : w2.length = 32)
    (h3 : w3.length = 32) :
    getWord (w0 ++ (w1 ++ (w2 ++ (w3 ++ (w4 ++ w5))))) 1 = w1 ∧
    getWord (w0 ++ (w1 ++ (w2 ++ (w3 ++ (w4 ++ w5))))) 3 = w3 := by
  constructor
  · rw [getWord_append_succ h0, getWord_append_zero h1]
  · rw [getWord_append_succ h0, getWord_append_succ h1, getWord_append_succ h2,
      getWord_append_zero h3]

theorem keccakW_length (bs : List Nat) : (keccakW bs).length = 32 := by
  simp [keccakW]

theorem foldr_pair_inj : ∀ (l1 l2 : List Nat), l1.length = l2.length →
    l1.foldr Nat.pair 0 = l2.foldr Nat.pair 0 → l1 = l2
  | [], [], _, _ => rfl
  | a :: t1, b :: t2, hl, hf => by
    simp only [List.foldr_cons] at hf
    obtain ⟨hab, ht⟩ := Nat.pair_eq_pair.mp hf
    have hlen : t1.length = t2.length := by simpa using hl
    rw [hab, foldr_pair_inj t1 t2 hlen ht]

theorem keccakW_injective : Function.Injective keccakW := by
  intro bs1 bs2 h
  unfold keccakW at h
  have h2 := List.append_cancel_left h
  simp only [List.cons.injEq, and_true] at h2
  obtain ⟨hl, hf⟩ := Nat.pair_eq_pair.mp h2
  exact foldr_pair_inj bs1 bs2 hl hf

/-- The `ebool` branch of the deterministic fallback body never reads
the nonce. -/
theorem compatEncode_ebool_nonce_free (keccak : List Nat → List Nat)
    (signer : Except String Nat) (c v t n1 n2 : Nat) :
    FHEVMClient.compatEncode keccak signer c v .ebool t n1 =
      FHEVMClient.compatEncode keccak signer c v .ebool t n2 := by
  cases signer <;> rfl

/-- The whole compatible fallback encoder ignores the nonce on the
`ebool` branch. -/
theorem createCompatible_ebool_nonce_free (keccak : List Nat → List Nat)
    (signer : Except String Nat) (c v t n1 n2 : Nat) :
    FHEVMClient.createCompatibleEncryptedInput keccak signer c v .ebool t n1 =
      FHEVMClient.createCompatibleEncryptedInput keccak signer c v .ebool t n2 := by
  unfold FHEVMClient.createCompatibleEncryptedInput
  rw [compatEncode_ebool_nonce_free keccak signer c v t n1 n2]

/-- The `euint32` fallback hash preimage determines timestamp and
nonce. -/
theorem euint32_preimage_inj {c u v t1 n1 t2 n2 : Nat}
    (ht1 : t1 < 2 ^ 64) (ht2 : t2 < 2 ^ 64)
    (h : utf8 "FHEVM_EUINT32" ++ addrBytes c ++ addrBytes u ++ abiWord v ++
        padBytes 8 t1 ++ padBytes 8 n1 =
      utf8 "FHEVM_EUINT32" ++ addrBytes c ++ addrBytes u ++ abiWord v ++
        padBytes 8 t2 ++ padBytes 8 n2) : t1 = t2 ∧ n1 = n2 := by
  simp only [List.append_assoc] at h
  have h1 := List.append_cancel_left h
  have h2 := List.append_cancel_left h1
  have h3 := List.append_cancel_left h2
  have h4 := List.append_cancel_left h3
  have hlen : (padBytes 8 t1).length = (padBytes 8 t2).length := by
    rw [padBytes_length (by norm_num) (by norm_num at ht1 ⊢; omega),
        padBytes_length (by norm_num) (by norm_num at ht2 ⊢; omega)]
  obtain ⟨ht, hn⟩ := List.append_inj h4 hlen
  exact ⟨padBytes_inj ht, padBytes_inj hn⟩

/-- The `ebool` fallback hash preimage determines the timestamp. -/
theorem ebool_preimage_inj {c u b t1 t2 : Nat}
    (h : utf8 "FHEVM_EBOOL" ++ addrBytes c ++ addrBytes u ++ abiWord b ++
        padBytes 8 t1 =
      utf8 "FHEVM_EBOOL" ++ addrBytes c ++ addrBytes u ++ abiWord b ++
        padBytes 8 t2) : t1 = t2 := by
  simp only [List.append_assoc] at h
  have h1 := List.append_cancel_left h
  have h2 := List.append_cancel_left h1
  have h3 := List.append_cancel_left h2
  have h4 := List.append_cancel_left h3
  exact padBytes_inj h4

/-- Whatever the outcome of a `createFhevmInstance` run, the final
cache is either untouched or exactly the complete post-creation write of
the created instance's key material — never a partial record. -/
theorem createFhevmInstance_cache_cases (env : InstanceEnv) (cache : CacheState) :
    (createFhevmInstance env cache).2 = cache ∨
    ∃ inst, env.createRes = .ok inst ∧
      (createFhevmInstance env cache).2 =
        PublicKeyStorage.set env.dbOk cache (aclKey env.aclAddress)
          (some inst.publicKey) (some inst.publicParams) := by
  obtain ⟨cir, mc, rpc, sv, lr, si, ir, acl, dbk, cr, ab⟩ := env
  rcases cir with e | chainId
  · exact Or.inl rfl
  rcases cr with ce | inst <;>
    simp only [createFhevmInstance] <;>
    repeat' split
  all_goals
    first
      | exact Or.inl rfl
      | exact Or.inr ⟨inst, rfl, rfl⟩

/-! ## Claim theorems -/

/-- C1: for both supported types and well-typed inputs the builder
returns a handle of exactly 32 bytes (a 66-character `0x` hex string)
and a non-empty proof on each of the three paths: (i) the primary SDK
path, under the engine interface contract (`bytes32` handles, non-empty
proof); (ii) the deterministic fallback path taken when no engine is
present; (iii) the minimal fallback path taken when the deterministic
body throws (here: a rejecting signer). -/
theorem C1_handle_proof_wellformed :
    (∀ (keccak : List Nat → List Nat) (enc : EngineOut) (u c v t n : Nat)
      (ty : FheType) (h0 : List Nat) (rest : List (List Nat)),
      enc.handles = h0 :: rest → h0.length = 32 → enc.inputProof ≠ [] →
      FHEVMClient.createEncryptedInput keccak 11155111 (some (.ok enc))
        (.ok u) c v ty t n = .ok { handle := h0, proof := enc.inputProof }) ∧
    (∀ (keccak : List Nat → List Nat) (chainId u c v t n : Nat) (ty : FheType),
      (∀ bs, (keccak bs).length = 32) → c < 2 ^ 160 → u < 2 ^ 160 →
      v < 2 ^ 32 → t < 2 ^ 64 → n < 2 ^ 64 →
      ∃ r, FHEVMClient.createEncryptedInput keccak chainId none (.ok u)
          c v ty t n = .ok r ∧ r.handle.length = 32 ∧
        (hexOfBytes r.handle).length = 66 ∧ r.proof ≠ []) ∧
    (∀ (keccak : List Nat → List Nat) (chainId c v t n : Nat) (ty : FheType)
      (e : String), c < 2 ^ 160 → v < 2 ^ 32 →
      ∃ r, FHEVMClient.createEncryptedInput keccak chainId none (.error e)
          c v ty t n = .ok r ∧ r.handle.length = 32 ∧
        (hexOfBytes r.handle).length = 66 ∧ r.proof ≠ []) := by
  refine ⟨?_, ?_, ?_⟩
  · intro keccak enc u c v t n ty h0 rest henc hlen hproof
    have hne : h0 ≠ [] := by
      intro hcontra
      rw [hcontra] at hlen
      simp at hlen
    simp [FHEVMClient.createEncryptedInput, FHEVMClient.primaryEncode, henc,
      hne, hproof]
  · intro keccak chainId u c v t n ty hk hc hu hv ht hn
    rw [createEncryptedInput_none_eq]
    have habic : (abiWord c).length = 32 :=
      length_abiWord (by norm_num at hc ⊢; omega)
    cases ty with
    | euint32 =>
      refine ⟨_, createCompatible_of_body_ok
        (compatEncode_euint32_eq keccak hc hu hv ht hn hk), hk _, ?_, ?_⟩
      · simp [length_hexOfBytes, hk]
      · intro hx
        have := congrArg List.length hx
        simp [List.length_append, hk] at this
    | ebool =>
      refine ⟨_, createCompatible_of_body_ok
        (compatEncode_ebool_eq keccak hc hu ht hk), hk _, ?_, ?_⟩
      · simp [length_hexOfBytes, hk]
      · intro hx
        have := congrArg List.length hx
        simp [List.length_append, hk] at this
  · intro keccak chainId c v t n ty e hc hv
    have hv256 : v < 2 ^ 256 := by norm_num at hv ⊢; omega
    have hvl : (abiWord v).length = 32 := length_abiWord hv256
    rw [createEncryptedInput_none_eq,
      createCompatible_of_body_error (compatEncode_signer_error keccak c v ty t n e),
      minimalEncode_eq hc hv256]
    refine ⟨_, rfl, hvl, ?_, ?_⟩
    · simp [length_hexOfBytes, hvl]
    · intro hx
      have := congrArg List.length hx
      simp [List.length_append, hvl] at this

/-- C1 witness: the deterministic fallback path for `euint32` on
concrete inputs. -/
theorem C1_handle_proof_wellformed_witness :
    ∃ r, FHEVMClient.createEncryptedInput (fun _ => List.replicate 32 0)
        31337 none (.ok 187) 170 5 .euint32 1700000000 123 = .ok r ∧
      r.handle.length = 32 ∧ (hexOfBytes r.handle).length = 66 ∧
      r.proof ≠ [] :=
  C1_handle_proof_wellformed.2.1 (fun _ => List.replicate 32 0) 31337 187 170
    5 1700000000 123 .euint32 (fun _ => by simp) (by norm_num) (by norm_num)
    (by norm_num) (by norm_num) (by norm_num)

/-- C2: for well-typed inputs `createEncryptedInput` always resolves:
whatever the engine and signer outcomes, it returns a result; a failing
engine call on the Sepolia path routes to the deterministic fallback
encoder rather than propagating, and a throw inside the deterministic
body routes to the minimal fallback. -/
theorem C2_never_rejects :
    (∀ (keccak : List Nat → List Nat) (chainId : Nat)
      (fhevmInstance : Option (Except String EngineOut))
      (signer : Except String Nat) (c v t n : Nat) (ty : FheType),
      (∀ bs, (keccak bs).length = 32) → c < 2 ^ 160 → v < 2 ^ 32 →
      t < 2 ^ 64 → n < 2 ^ 64 → (∀ u, signer = .ok u → u < 2 ^ 160) →
      ∃ r, FHEVMClient.createEncryptedInput keccak chainId fhevmInstance
        signer c v ty t n = .ok r) ∧
    (∀ (keccak : List Nat → List Nat) (e : String)
      (signer : Except String Nat) (c v t n : Nat) (ty : FheType),
      FHEVMClient.createEncryptedInput keccak 11155111 (some (.error e))
        signer c v ty t n =
        FHEVMClient.createCompatibleEncryptedInput keccak signer c v ty t n) ∧
    (∀ (keccak : List Nat → List Nat) (e : String) (c v t n : Nat)
      (ty : FheType),
      FHEVMClient.createCompatibleEncryptedInput keccak (.error e) c v ty t n =
        FHEVMClient.minimalEncode c v) := by
  refine ⟨?_, ?_, ?_⟩
  · intro keccak chainId fhevmInstance signer c v t n ty hk hc hv ht hn hs
    obtain ⟨rc, hrc⟩ := createCompatible_total signer ty hk hc hv ht hn hs
    cases hp : FHEVMClient.primaryEncode keccak chainId fhevmInstance signer
        c v ty t n with
    | ok r => exact ⟨r, by simp [FHEVMClient.createEncryptedInput, hp]⟩
    | error e => exact ⟨rc, by simp [FHEVMClient.createEncryptedInput, hp, hrc]⟩
  · intro keccak e signer c v t n ty
    cases hcc : FHEVMClient.createCompatibleEncryptedInput keccak signer
        c v ty t n with
    | ok r =>
      cases signer <;>
        simp [FHEVMClient.createEncryptedInput, FHEVMClient.primaryEncode, hcc]
    | error e2 =>
      cases signer <;>
        simp [FHEVMClient.createEncryptedInput, FHEVMClient.primaryEncode, hcc]
  · intro keccak e c v t n ty
    exact createCompatible_of_body_error (compatEncode_signer_error keccak c v ty t n e)

/-- C2 witness: a concrete well-typed call with no engine resolves. -/
theorem C2_never_rejects_witness :
    ∃ r, FHEVMClient.createEncryptedInput (fun _ => List.replicate 32 0) 1
      none (.ok 187) 170 5 .euint32 1700000000 123 = .ok r :=
  C2_never_rejects.1 (fun _ => List.replicate 32 0) 1 none (.ok 187) 170 5
    1700000000 123 .euint32 (fun _ => by simp) (by norm_num) (by norm_num)
    (by norm_num) (by norm_num)
    (by intro u hu; cases hu; norm_num)

/-- C4: with no engine instance, encrypting `value = 5` of type `U32`
takes the fallback path and yields a handle whose hex rendering is 66
characters, and a proof that is a 192-byte six-word tuple whose fourth
word (the `uint32`, third from the end) decodes to `5` and whose second
word decodes to the contract address. -/
theorem C4_fallback_value5 (keccak : List Nat → List Nat)
    (chainId u c t n : Nat) (hk : ∀ bs, (keccak bs).length = 32)
    (hc : c < 2 ^ 160) (hu : u < 2 ^ 160) (ht : t < 2 ^ 64) (hn : n < 2 ^ 64) :
    ∃ r, FHEVMClient.createEncryptedInput keccak chainId none (.ok u)
        c 5 .euint32 t n = .ok r ∧
      (hexOfBytes r.handle).length = 66 ∧ r.proof.length = 192 ∧
      getWord r.proof 3 = abiWord 5 ∧ fromBE (getWord r.proof 3) = 5 ∧
      getWord r.proof 1 = abiWord c ∧ fromBE (getWord r.proof 1) = c := by
  have h5 : (5 : Nat) < 2 ^ 32 := by norm_num
  have hcl : (abiWord c).length = 32 := length_abiWord (by norm_num at hc ⊢; omega)
  have hul : (abiWord u).length = 32 := length_abiWord (by norm_num at hu ⊢; omega)
  have h5l : (abiWord 5).length = 32 := length_abiWord (by norm_num)
  have htl : (abiWord t).length = 32 := length_abiWord (by norm_num at ht ⊢; omega)
  rw [createEncryptedInput_none_eq]
  obtain ⟨hw1, hw3⟩ := getWord_proof_six
    (keccak (utf8 "FHEVM_EUINT32" ++ (addrBytes c ++ (addrBytes u ++
      (abiWord 5 ++ (padBytes 8 t ++ padBytes 8 n))))))
    (abiWord c) (abiWord u) (abiWord 5) (abiWord t)
    (keccak (utf8 ("proof_" ++ toString 5 ++ "_" ++ toString t ++ "_" ++
      toString n)))
    (hk _) hcl hul h5l
  refine ⟨_, createCompatible_of_body_ok
    (compatEncode_euint32_eq keccak hc hu h5 ht hn hk), ?_, ?_, ?_, ?_, ?_, ?_⟩
  · simp [length_hexOfBytes, hk]
  · simp [List.length_append, hk, hcl, hul, h5l, htl]
  · simp only [List.append_assoc]
    exact hw3
  · simp only [List.append_assoc]
    rw [hw3]
    exact fromBE_padBytes 32 5
  · simp only [List.append_assoc]
    exact hw1
  · simp only [List.append_assoc]
    rw [hw1]
    exact fromBE_padBytes 32 c

/-- C4 witness: the scenario at concrete addresses and freshness
inputs. -/
theorem C4_fallback_value5_witness :
    ∃ r, FHEVMClient.createEncryptedInput (fun _ => List.replicate 32 0)
        11155111 none (.ok 187) 170 5 .euint32 1700000000 123 = .ok r ∧
      (hexOfBytes r.handle).length = 66 ∧ r.proof.length = 192 ∧
      getWord r.proof 3 = abiWord 5 ∧ fromBE (getWord r.proof 3) = 5 ∧
      getWord r.proof 1 = abiWord 170 ∧ fromBE (getWord r.proof 1) = 170 :=
  C4_fallback_value5 (fun _ => List.replicate 32 0) 11155111 187 170
    1700000000 123 (fun _ => by simp) (by norm_num) (by norm_num)
    (by norm_num) (by norm_num)

/-- C3 counterexample: for `ebool` the fallback encoder's handle hash
does not cover the nonce, so two calls with identical contract, user,
value and type, the same timestamp and different nonces return
identical results — and hence identical handles — contradicting the
claimed per-type freshness. -/
theorem C3_counterexample :
    (FHEVMClient.createCompatibleEncryptedInput keccakW (.ok 187) 170 1 .ebool
        1700000000 1 =
      FHEVMClient.createCompatibleEncryptedInput keccakW (.ok 187) 170 1 .ebool
        1700000000 2) ∧ (1 : Nat) ≠ 2 :=
  ⟨createCompatible_ebool_nonce_free keccakW (.ok 187) 170 1 1700000000 1 2,
    by decide⟩

/-- C3 (amended): the `euint32` fallback handle is a hash over exactly
the type tag, contract address, user address, zero-padded value,
timestamp and nonce, and (for a collision-free 32-byte hash) calls with
identical inputs but different timestamp/nonce pairs yield different
handles; the `ebool` fallback handle hashes only the tag, addresses,
coerced value and timestamp — the nonce does not enter it, so only a
fresh timestamp changes the handle and the nonce never does.  In both
branches the proof decodes to a tuple whose second word is the contract
address and whose fourth word is the (coerced) original value. -/
theorem C3_fallback_domain_hash (keccak : List Nat → List Nat) (c u : Nat)
    (hc : c < 2 ^ 160) (hu : u < 2 ^ 160) :
    (∀ v t n r, v < 2 ^ 32 → t < 2 ^ 64 → n < 2 ^ 64 →
      (∀ bs, (keccak bs).length = 32) →
      FHEVMClient.compatEncode keccak (.ok u) c v .euint32 t n = .ok r →
      r.handle = keccak (utf8 "FHEVM_EUINT32" ++ addrBytes c ++ addrBytes u ++
        abiWord v ++ padBytes 8 t ++ padBytes 8 n) ∧
      fromBE (getWord r.proof 1) = c ∧ fromBE (getWord r.proof 3) = v) ∧
    (∀ v t1 n1 t2 n2 r1 r2, Function.Injective keccak →
      (∀ bs, (keccak bs).length = 32) →
      v < 2 ^ 32 → t1 < 2 ^ 64 → n1 < 2 ^ 64 → t2 < 2 ^ 64 → n2 < 2 ^ 64 →
      (t1, n1) ≠ (t2, n2) →
      FHEVMClient.compatEncode keccak (.ok u) c v .euint32 t1 n1 = .ok r1 →
      FHEVMClient.compatEncode keccak (.ok u) c v .euint32 t2 n2 = .ok r2 →
      r1.handle ≠ r2.handle) ∧
    (∀ v t n r, t < 2 ^ 64 → (∀ bs, (keccak bs).length = 32) →
      FHEVMClient.compatEncode keccak (.ok u) c v .ebool t n = .ok r →
      r.handle = keccak (utf8 "FHEVM_EBOOL" ++ addrBytes c ++ addrBytes u ++
        abiWord (if v = 0 then 0 else 1) ++ padBytes 8 t) ∧
      fromBE (getWord r.proof 1) = c ∧
      fromBE (getWord r.proof 3) = (if v = 0 then 0 else 1)) ∧
    (∀ v t n1 n2, FHEVMClient.compatEncode keccak (.ok u) c v .ebool t n1 =
      FHEVMClient.compatEncode keccak (.ok u) c v .ebool t n2) ∧
    (∀ v t1 t2 n1 n2 r1 r2, Function.Injective keccak →
      (∀ bs, (keccak bs).length = 32) → t1 < 2 ^ 64 → t2 < 2 ^ 64 → t1 ≠ t2 →
      FHEVMClient.compatEncode keccak (.ok u) c v .ebool t1 n1 = .ok r1 →
      FHEVMClient.compatEncode keccak (.ok u) c v .ebool t2 n2 = .ok r2 →
      r1.handle ≠ r2.handle) := by
  have hcl : (abiWord c).length = 32 := length_abiWord (by norm_num at hc ⊢; omega)
  have hul : (abiWord u).length = 32 := length_abiWord (by norm_num at hu ⊢; omega)
  refine ⟨?_, ?_, ?_, ?_, ?_⟩
  · intro v t n r hv ht hn hk h
    rw [compatEncode_euint32_eq keccak hc hu hv ht hn hk] at h
    injection h with h2
    subst h2
    have hvl : (abiWord v).length = 32 :=
      length_abiWord (by norm_num at hv ⊢; omega)
    obtain ⟨hw1, hw3⟩ := getWord_proof_six
      (keccak (utf8 "FHEVM_EUINT32" ++ (addrBytes c ++ (addrBytes u ++
        (abiWord v ++ (padBytes 8 t ++ padBytes 8 n))))))
      (abiWord c) (abiWord u) (abiWord v) (abiWord t)
      (keccak (utf8 ("proof_" ++ toString v ++ "_" ++ toString t ++ "_" ++
        toString n)))
      (hk _) hcl hul hvl
    refine ⟨rfl, ?_, ?_⟩
    · simp only [List.append_assoc]
      rw [hw1]
      exact fromBE_padBytes 32 c
    · simp only [List.append_assoc]
      rw [hw3]
      exact fromBE_padBytes 32 v
  · intro v t1 n1 t2 n2 r1 r2 hinj hk hv ht1 hn1 ht2 hn2 hne h1 h2
    rw [compatEncode_euint32_eq keccak hc hu hv ht1 hn1 hk] at h1
    rw [compatEncode_euint32_eq keccak hc hu hv ht2 hn2 hk] at h2
    injection h1 with h1e
    injection h2 with h2e
    subst h1e
    subst h2e
    intro heq
    have hP := hinj heq
    obtain ⟨ht, hn⟩ := euint32_preimage_inj ht1 ht2 hP
    exact hne (by rw [ht, hn])
  · intro v t n r ht hk h
    rw [compatEncode_ebool_eq keccak hc hu ht hk] at h
    injection h with h2
    subst h2
    have hbl : (abiWord (if v = 0 then 0 else 1)).length = 32 :=
      length_abiWord (by split <;> norm_num)
    obtain ⟨hw1, hw3⟩ := getWord_proof_six
      (keccak (utf8 "FHEVM_EBOOL" ++ (addrBytes c ++ (addrBytes u ++
        (abiWord (if v = 0 then 0 else 1) ++ padBytes 8 t)))))
      (abiWord c) (abiWord u) (abiWord (if v = 0 then 0 else 1)) (abiWord t)
      (keccak (utf8 ("bool_proof_" ++ toString (if v = 0 then 0 else 1) ++
        "_" ++ toString t)))
      (hk _) hcl hul hbl
    refine ⟨rfl, ?_, ?_⟩
    · simp only [List.append_assoc]
      rw [hw1]
      exact fromBE_padBytes 32 c
    · simp only [List.append_assoc]
      rw [hw3]
      exact fromBE_padBytes 32 (if v = 0 then 0 else 1)
  · intro v t n1 n2
    exact compatEncode_ebool_nonce_free keccak (.ok u) c v t n1 n2
  · intro v t1 t2 n1 n2 r1 r2 hinj hk ht1 ht2 hne h1 h2
    rw [compatEncode_ebool_eq keccak hc hu ht1 hk] at h1
    rw [compatEncode_ebool_eq keccak hc hu ht2 hk] at h2
    injection h1 with h1e
    injection h2 with h2e
    subst h1e
    subst h2e
    intro heq
    exact hne (ebool_preimage_inj (hinj heq))

/-- C3 witness: with the injective 32-byte packing hash, two `euint32`
fallback preimages that differ only in the nonce give different
handles (via the amended theorem), while the `ebool` branch ignores the
nonce entirely. -/
theorem C3_fallback_domain_hash_witness :
    (keccakW (utf8 "FHEVM_EUINT32" ++ addrBytes 170 ++ addrBytes 187 ++
        abiWord 5 ++ padBytes 8 1000 ++ padBytes 8 1) ≠
      keccakW (utf8 "FHEVM_EUINT32" ++ addrBytes 170 ++ addrBytes 187 ++
        abiWord 5 ++ padBytes 8 1000 ++ padBytes 8 2)) ∧
    (FHEVMClient.compatEncode keccakW (.ok 187) 170 1 .ebool 1000 1 =
      FHEVMClient.compatEncode keccakW (.ok 187) 170 1 .ebool 1000 2) := by
  constructor
  · exact (C3_fallback_domain_hash keccakW 170 187 (by norm_num)
      (by norm_num)).2.1 5 1000 1 1000 2 _ _ keccakW_injective keccakW_length
      (by norm_num) (by norm_num) (by norm_num) (by norm_num) (by norm_num)
      (by decide)
      (compatEncode_euint32_eq keccakW (by norm_num) (by norm_num)
        (by norm_num) (by norm_num) (by norm_num) keccakW_length)
      (compatEncode_euint32_eq keccakW (by norm_num) (by norm_num)
        (by norm_num) (by norm_num) (by norm_num) keccakW_length)
  · exact (C3_fallback_domain_hash keccakW 170 187 (by norm_num)
      (by norm_num)).2.2.2.1 1 1000 1 2

/-- C7 counterexample: the post-creation cache write precedes the final
cancellation check, so a run whose signal becomes aborted during
instance creation (here: the third signal read is the first aborted
one) rejects with the cancellation error *after* having written the key
material cache — the claim that a cancelled run performs no cache write
fails. -/
theorem C7_counterexample :
    (createFhevmInstance
      { chainIdRes := .ok 11155111, mockChains := [], rpcUrlPresent := false,
        sdkValid := true, loadRes := .ok (), sdkInitialized := true,
        initRes := .ok (), aclAddress := 170, dbOk := true,
        createRes := .ok ⟨⟨"k", [1]⟩, ⟨"p", [2]⟩⟩,
        aborted := fun i => decide (2 ≤ i) } emptyCache).1 =
      .error .cancelled ∧
    (createFhevmInstance
      { chainIdRes := .ok 11155111, mockChains := [], rpcUrlPresent := false,
        sdkValid := true, loadRes := .ok (), sdkInitialized := true,
        initRes := .ok (), aclAddress := 170, dbOk := true,
        createRes := .ok ⟨⟨"k", [1]⟩, ⟨"p", [2]⟩⟩,
        aborted := fun i => decide (2 ≤ i) } emptyCache).2 ≠ emptyCache := by
  constructor
  · rfl
  · intro heq
    have hlen : (createFhevmInstance
        { chainIdRes := .ok 11155111, mockChains := [], rpcUrlPresent := false,
          sdkValid := true, loadRes := .ok (), sdkInitialized := true,
          initRes := .ok (), aclAddress := 170, dbOk := true,
          createRes := .ok ⟨⟨"k", [1]⟩, ⟨"p", [2]⟩⟩,
          aborted := fun i => decide (2 ≤ i) } emptyCache).2.publicKeyStore.length
        = 1 := rfl
    rw [heq] at hlen
    simp [emptyCache] at hlen

/-- C7 (amended): `createFhevmInstance` checks the cancellation signal
between its steps and aborts with the distinct cancellation error (in
particular, a signal already set at the first check cancels the run
with the cache untouched); a cancelled run leaves the cache either
unchanged or — because the post-creation write happens before the final
check — holding exactly the complete key material of the successfully
created instance, never a partial record. -/
theorem C7_cancellation_cache :
    (∀ (env : InstanceEnv) (cache : CacheState)
      (r : Except FhevmErr InstanceOut) (c2 : CacheState),
      createFhevmInstance env cache = (r, c2) → r = .error .cancelled →
      c2 = cache ∨ ∃ inst, env.createRes = .ok inst ∧
        c2 = PublicKeyStorage.set env.dbOk cache (aclKey env.aclAddress)
          (some inst.publicKey) (some inst.publicParams)) ∧
    (∀ (env : InstanceEnv) (cache : CacheState) (chainId : Nat),
      env.chainIdRes = .ok chainId → env.aborted 0 = true →
      createFhevmInstance env cache = (.error .cancelled, cache)) := by
  constructor
  · intro env cache r c2 h hr
    have hgen := createFhevmInstance_cache_cases env cache
    rw [h] at hgen
    exact hgen
  · intro env cache chainId hcir hab
    obtain ⟨cir, mc, rpc, sv, lr, si, ir, acl, dbk, cr, ab⟩ := env
    simp only at hcir hab
    subst hcir
    simp [createFhevmInstance, hab]

/-- C7 witness: a signal that is already set at the first check cancels
the run and leaves the cache untouched. -/
theorem C7_cancellation_cache_witness :
    createFhevmInstance
      { chainIdRes := .ok 5, mockChains := [], rpcUrlPresent := false,
        sdkValid := true, loadRes := .ok (), sdkInitialized := true,
        initRes := .ok (), aclAddress := 170, dbOk := true,
        createRes := .error "never reached",
        aborted := fun _ => true } emptyCache =
      (.error .cancelled, emptyCache) :=
  C7_cancellation_cache.2
    { chainIdRes := .ok 5, mockChains := [], rpcUrlPresent := false,
      sdkValid := true, loadRes := .ok (), sdkInitialized := true,
      initRes := .ok (), aclAddress := 170, dbOk := true,
      createRes := .error "never reached",
      aborted := fun _ => true } emptyCache 5 rfl rfl

/-- C10: `FHEVMClient.isReady` depends only on the chain id — it holds
exactly when the chain id is 11155111 or 31337 — even when engine
instance creation failed, because `initialize` swallows the failure and
stores `null`; an initialized manager holding the client then reports
exactly the client's readiness. -/
theorem C10_isReady_depends_only_on_chainId :
    (∀ (createRes : Except String Unit) (c : FHEVMClientState),
      FHEVMClient.isReady (FHEVMClient.initClient createRes c) =
        (c.chainId == 11155111 || c.chainId == 31337)) ∧
    (∀ (e : String) (c : FHEVMClientState),
      (FHEVMClient.initClient (.error e) c).fhevmInstance = none) ∧
    (∀ c : FHEVMClientState,
      FHEVMMetaManager.isReady
        { isInitialized := true, fhevmClient := some c } =
        FHEVMClient.isReady c) := by
  refine ⟨fun _ c => rfl, fun e c => rfl, fun c => ?_⟩
  simp [FHEVMMetaManager.isReady]

/-- C5: every run of `executeMetaTransaction` moves the transaction
status only forward along `pending → processing → terminal` (the status
trace is monotone and nothing follows a terminal status), and the
polling refresh never lowers a rank and never touches a transaction
whose status is already terminal. -/
theorem C5_status_monotonicity :
    (∀ env : ExecEnv,
      monotoneTrace (FHEVMMetaManager.executeMetaTransaction env).2 = true) ∧
    (∀ (statusRes : Except String Bool) (tx : MetaTx),
      statusRank tx.status ≤ statusRank (refreshStep statusRes tx).status ∧
      (isTerminal tx.status = true → refreshStep statusRes tx = tx)) := by
  constructor
  · intro env
    rcases env with ⟨so, si, hf, sr, wr⟩
    rcases so with e | u
    · rfl
    rcases si with e | u2
    · rfl
    cases hf
    · rfl
    rcases sr with e | h
    · rfl
    rcases wr with e | r
    · rfl
    rcases r with _ | r
    · rfl
    by_cases hs : r.status = 1 <;>
      simp [FHEVMMetaManager.executeMetaTransaction, monotoneTrace, statusRank,
        isTerminal, hs]
  · intro statusRes tx
    unfold refreshStep
    split
    · exact ⟨Nat.le_refl _, fun _ => rfl⟩
    · rename_i hcond
      push_neg at hcond
      obtain ⟨h1, h2, h3⟩ := hcond
      cases statusRes with
      | error e => exact ⟨Nat.le_refl _, fun _ => rfl⟩
      | ok confirmed =>
        cases confirmed
        · exact ⟨Nat.le_refl _, fun _ => rfl⟩
        · refine ⟨?_, fun hterm => ?_⟩
          · cases tx.status <;> simp [statusRank]
          · exfalso
            cases htx : tx.status <;> rw [htx] at hterm h1 h2 <;>
              simp [isTerminal] at hterm h1 h2

/-- C5 witness: the refresh step leaves a completed transaction
untouched. -/
theorem C5_status_monotonicity_witness :
    refreshStep (.ok true)
      { status := .completed, txHash := some "0xabc",
        blockNumber := none, gasUsed := none } =
      { status := .completed, txHash := some "0xabc",
        blockNumber := none, gasUsed := none } :=
  (C5_status_monotonicity.2 (.ok true)
    { status := .completed, txHash := some "0xabc",
      blockNumber := none, gasUsed := none }).2 rfl

/-- C9 counterexample: a submission failure makes the hook-level
`executeMetaTransaction` reject (the error is thrown past the Manager
boundary) and the caller-visible history stays empty — the failed
`MetaTransaction` is not recorded in it, contrary to the claim. -/
theorem C9_counterexample :
    hookExecute
      { signerOuter := .ok 0, signerInner := .ok 0, hasFunction := true,
        sendRes := .error "submit failed", waitRes := .ok none }
      ([] : List MetaTx) =
      (.error "Meta transaction failed: submit failed", []) := rfl

/-- C9 (amended): a mined receipt whose status is not 1 is resolved as a
`failed` `MetaTransaction` and appended to the caller-visible history
without throwing; but an exception during submission makes
`executeMetaTransaction` reject with a `Meta transaction failed` error
and the failed transaction is not appended to the history. -/
theorem C9_failed_recording :
    (∀ (env : ExecEnv) (history : List MetaTx) (u1 u2 : Nat) (txh : String)
      (r : Receipt),
      env.signerOuter = .ok u1 → env.signerInner = .ok u2 →
      env.hasFunction = true → env.sendRes = .ok txh →
      env.waitRes = .ok (some r) → r.status ≠ 1 →
      hookExecute env history =
        (.ok { status := .failed, txHash := some txh,
               blockNumber := some r.blockNumber, gasUsed := some r.gasUsed },
         { status := .failed, txHash := some txh,
           blockNumber := some r.blockNumber,
           gasUsed := some r.gasUsed } :: history)) ∧
    (∀ (env : ExecEnv) (history : List MetaTx) (u1 u2 : Nat) (e : String),
      env.signerOuter = .ok u1 → env.signerInner = .ok u2 →
      env.hasFunction = true → env.sendRes = .error e →
      hookExecute env history =
        (.error ("Meta transaction failed: " ++ e), history)) := by
  constructor
  · intro env history u1 u2 txh r hso hsi hhf hsend hwait hrev
    rcases env with ⟨so, si, hf, sr, wr⟩
    simp only at hso hsi hhf hsend hwait
    subst hso hsi hhf hsend hwait
    simp [hookExecute, FHEVMMetaManager.executeMetaTransaction, hrev]
  · intro env history u1 u2 e hso hsi hhf hsend
    rcases env with ⟨so, si, hf, sr, wr⟩
    simp only at hso hsi hhf hsend
    subst hso hsi hhf hsend
    simp [hookExecute, FHEVMMetaManager.executeMetaTransaction]

/-- C9 witness: instantiation of the amended claim on a reverted
receipt. -/
theorem C9_failed_recording_witness :
    hookExecute
      { signerOuter := .ok 0, signerInner := .ok 0, hasFunction := true,
        sendRes := .ok "0xdead",
        waitRes := .ok (some { status := 0, blockNumber := 7, gasUsed := 21000 }) }
      ([] : List MetaTx) =
      (.ok { status := .failed, txHash := some "0xdead",
             blockNumber := some 7, gasUsed := some 21000 },
       [{ status := .failed, txHash := some "0xdead",
          blockNumber := some 7, gasUsed := some 21000 }]) :=
  C9_failed_recording.1
    { signerOuter := .ok 0, signerInner := .ok 0, hasFunction := true,
      sendRes := .ok "0xdead",
      waitRes := .ok (some { status := 0, blockNumber := 7, gasUsed := 21000 }) }
    [] 0 0 "0xdead" { status := 0, blockNumber := 7, gasUsed := 21000 }
    rfl rfl rfl rfl rfl (by decide)

/-- C8 counterexample: with `chainId = 1` the hook's `initialize` fails
its support check, so the later `executeMetaTransaction` call rejects
before reaching the manager — but its rejection message is the generic
`FHEVM Meta Manager not initialized`, which does not identify the
network as unsupported; the unsupported-network text only lives in the
hook's error state. -/
theorem C8_counterexample :
    (hookExecuteGuarded (hookInit 1 (.ok ()))
        { signerOuter := .ok 0, signerInner := .ok 0, hasFunction := true,
          sendRes := .ok "0xabc", waitRes := .ok none }
        []).1 = .error "FHEVM Meta Manager not initialized" ∧
    containsSub "FHEVM Meta Manager not initialized" "not supported" = false ∧
    containsSub "FHEVM Meta Manager not initialized" "unsupported" = false ∧
    (hookInit 1 (.ok ())).error =
      some "Initialization failed: Network 1 is not supported for FHEVM operations" := by
  refine ⟨rfl, by decide, by decide, by rfl⟩

/-- C8 (amended): chain id 1 is unsupported; the hook's `initialize`
records the unsupported-network message in its error state and leaves
the manager `null`, so a subsequent `executeMetaTransaction` rejects
before any encryption or network work — but with the generic
`FHEVM Meta Manager not initialized` message, not one naming the
unsupported network. -/
theorem C8_unsupported_network_rejection (env : ExecEnv)
    (history : List MetaTx) (managerInit : Except String Unit) :
    FHEVMMetaManager.isNetworkSupported 1 = false ∧
    (hookInit 1 managerInit).manager = none ∧
    (hookInit 1 managerInit).error =
      some "Initialization failed: Network 1 is not supported for FHEVM operations" ∧
    hookExecuteGuarded (hookInit 1 managerInit) env history =
      (.error "FHEVM Meta Manager not initialized", history, false) := by
  refine ⟨rfl, rfl, rfl, rfl⟩

/-- C6 counterexample: `get` on a working store and an unknown domain id
returns an object with no `publicKey` property at all (`undefined`), not
the `\x7bpublicKey: null, publicParams: null\x7d` object the claim
describes (that exact object is only produced by the storage-failure
`catch`). -/
theorem C6_counterexample :
    (PublicKeyStorage.get true emptyCache "0xaa").publicKey = JsOpt.undef ∧
    (JsOpt.undef : JsOpt PublicKeyOut) ≠ JsOpt.null := by
  exact ⟨rfl, by decide⟩

/-- C6 (amended): `set` followed by `get` on the same domain id returns
the stored key material (as the `id`/`data` record and the `"2048"`
wrapper); `get` on a never-set domain id with working storage returns an
object whose `publicKey` field is absent and whose `publicParams` is
`null`, and when the underlying storage fails both fields are `null`;
`get` never throws (it is total) and a failing `set` leaves the store
unchanged. -/
theorem C6_cache_roundtrip :
    (∀ (st : CacheState) (acl : String) (pk : FhevmStoredPublicKey)
      (pp : FhevmStoredPublicParams), pk.publicKeyId ≠ "" →
      PublicKeyStorage.get true
        (PublicKeyStorage.set true st acl (some pk) (some pp)) acl =
        { publicKey := .val { id := pk.publicKeyId, data := pk.publicKey },
          publicParams := .val { size2048 := pp } }) ∧
    (∀ acl : String, PublicKeyStorage.get true emptyCache acl =
      { publicKey := .undef, publicParams := .null }) ∧
    (∀ (st : CacheState) (acl : String), PublicKeyStorage.get false st acl =
      { publicKey := .null, publicParams := .null }) ∧
    (∀ (st : CacheState) (acl : String) (pk : Option FhevmStoredPublicKey)
      (pp : Option FhevmStoredPublicParams),
      PublicKeyStorage.set false st acl pk pp = st) := by
  refine ⟨?_, ?_, ?_, ?_⟩
  · intro st acl pk pp hid
    simp [PublicKeyStorage.get, PublicKeyStorage.set, upsert, List.lookup, hid]
  · intro acl
    simp [PublicKeyStorage.get, emptyCache, List.lookup]
  · intro st acl
    simp [PublicKeyStorage.get]
  · intro st acl pk pp
    simp [PublicKeyStorage.set]

/-- C6 witness: the round trip evaluated on a concrete store. -/
theorem C6_cache_roundtrip_witness :
    PublicKeyStorage.get true
      (PublicKeyStorage.set true emptyCache "0xacl"
        (some { publicKeyId := "k1", publicKey := [1, 2] })
        (some { publicParamsId := "p1", publicParams := [3] })) "0xacl" =
      { publicKey := .val { id := "k1", data := [1, 2] },
        publicParams := .val { size2048 :=
          { publicParamsId := "p1", publicParams := [3] } } } :=
  C6_cache_roundtrip.1 emptyCache "0xacl"
    { publicKeyId := "k1", publicKey := [1, 2] }
    { publicParamsId := "p1", publicParams := [3] } (by decide)

end Counter
